import Mathlib

/-!
Verification development for the RSN_DB engine.

The repository ships the interactive shell (`src/python/rsn_db/cli.py`) and
the test suite (`src/tests/test_rsn_db.py`); the core engine module
(`rsn_db._core`) is not part of the source tree.  The engine definitions
below are therefore modelled from the specification (spec.md), faithful to
its words and to the behaviour the test suite exercises; the shell loop is
embedded from `cli.py` directly.
-/

namespace RsnDb

/-- Modelled from the spec: field types of `FieldSpec`
(`type: enum{String,Integer,Boolean,Float,...}`, spec §3). -/
inductive FieldType where
  | string
  | integer
  | boolean
  | float
deriving DecidableEq, Repr

/-- Modelled from the spec: scalar values stored in rows and the kv store
(missing module `rsn_db._core`). Floats are modelled as rationals. -/
inductive Value where
  | str (s : String)
  | int (n : Int)
  | bool (b : Bool)
  | float (q : Rat)
deriving DecidableEq, Repr

/-- Modelled from the spec: `FieldSpec: {type, required, unique}` (spec §3). -/
structure FieldSpec where
  type : FieldType
  required : Bool := false
  unique : Bool := false
deriving DecidableEq, Repr

/-- Row data: a mapping field name → value, as an association list. -/
abbrev RowData := List (String × Value)

/-- Association-list lookup (first binding wins), modelling dict access. -/
def alookup {β : Type} : List (String × β) → String → Option β
  | [], _ => none
  | (k2, v) :: rest, k => if k2 = k then some v else alookup rest k

/-- Association-list update (replace first binding or append), modelling
dict assignment. -/
def aset {β : Type} : List (String × β) → String → β → List (String × β)
  | [], k, v => [(k, v)]
  | (k2, w) :: rest, k, v =>
      if k2 = k then (k, v) :: rest else (k2, w) :: aset rest k v

/-- Modelled from the spec: `Row: {id, data}` (spec §3); the table
back-reference is implicit in ownership. -/
structure Row where
  id : Nat
  data : RowData
deriving DecidableEq, Repr

/-- Modelled from the spec: `Table: {name, fields, flexible, next_id}`
plus its owned rows in insertion order (spec §3). -/
structure Table where
  name : String
  fields : List (String × FieldSpec)
  flexible : Bool
  nextId : Nat
  rows : List Row
deriving DecidableEq, Repr

/-- Modelled from the spec: `RelationEdge: {from: (table, id), label, to:
(table, id)}` (spec §3). -/
structure Edge where
  fromTable : String
  fromId : Nat
  label : String
  toTable : String
  toId : Nat
deriving DecidableEq, Repr

/-- Modelled from the spec: the captured state of a snapshot — a deep copy
of tables (with rows), relations and kv (spec §3, §4.6). -/
structure StoreState where
  tables : List Table
  relations : List Edge
  kv : List (String × Value)
deriving DecidableEq, Repr

/-- Modelled from the spec: the whole engine state of the missing
`rsn_db._core.Database`: the four data stores, named snapshots, and the
command-interpreter state (history, aliases, batch session). -/
structure Database where
  tables : List Table
  relations : List Edge
  kv : List (String × Value)
  snapshots : List (String × StoreState)
  history : List String
  aliases : List (String × String)
  batchActive : Bool
  batchCount : Nat
deriving DecidableEq, Repr

/-- The freshly constructed engine: all stores empty, no batch session. -/
def emptyDb : Database :=
  { tables := [], relations := [], kv := [], snapshots := []
    history := [], aliases := [], batchActive := false, batchCount := 0 }

/-- Does a value inhabit a declared field type? -/
def typeMatches : FieldType → Value → Bool
  | .string, .str _ => true
  | .integer, .int _ => true
  | .boolean, .bool _ => true
  | .float, .float _ => true
  | _, _ => false

/-- Names of the fields declared `unique` in a schema. -/
def uniqueFieldNames (fields : List (String × FieldSpec)) : List String :=
  (fields.filter (fun p => p.2.unique)).map Prod.fst

/-- Per-declared-field validation: presence of required fields and type
compatibility (spec §4.1). -/
def validateFields : List (String × FieldSpec) → RowData → Except String Unit
  | [], _ => .ok ()
  | (fname, sp) :: rest, data =>
      match alookup data fname with
      | none =>
          if sp.required then .error ("Missing required field '" ++ fname ++ "'")
          else validateFields rest data
      | some v =>
          if typeMatches sp.type v then validateFields rest data
          else .error ("Field '" ++ fname ++ "' has the wrong type")

/-- Modelled from the spec: `SchemaRegistry.validate` (spec §4.1) — when
`flexible=false` any key in `data` absent from `fields` is rejected with a
schema-membership error; then required/type checks run per declared field. -/
def validate (fields : List (String × FieldSpec)) (flexible : Bool)
    (data : RowData) : Except String Unit :=
  if flexible then validateFields fields data
  else
    match data.find? (fun kv => !((fields.map Prod.fst).contains kv.1)) with
    | some kv => .error ("Field '" ++ kv.1 ++ "' is not part of the schema")
    | none => validateFields fields data

/-- Do two rows hold the same value of field `f`? (Both present and equal.) -/
def sharesValue (d1 d2 : RowData) (f : String) : Bool :=
  match alookup d1 f, alookup d2 f with
  | some v, some w => decide (v = w)
  | _, _ => false

/-- Does `data` clash on some `unique` field with one of `rows`?
(spec §4.2: the uniqueness scan over live rows). -/
def uniqueConflictRows (fields : List (String × FieldSpec)) (data : RowData)
    (rows : List Row) : Bool :=
  rows.any (fun r => fields.any (fun fs => fs.2.unique && sharesValue data r.data fs.1))

/-- Find a table by name. -/
def getTable (db : Database) (tname : String) : Option Table :=
  db.tables.find? (fun t => t.name == tname)

/-- Replace the table of the given name. -/
def setTable (db : Database) (tname : String) (tbl : Table) : Database :=
  { db with tables := db.tables.map (fun t => if t.name = tname then tbl else t) }

/-- Modelled from the spec: `create_table(name, fields, flexible)` — fails
`AlreadyExists` if the name is taken, else registers an empty table
(spec §4.1, §3). -/
def create_table (db : Database) (tname : String)
    (fields : List (String × FieldSpec)) (flexible : Bool) :
    Except String Unit × Database :=
  match getTable db tname with
  | some _ => (.error ("Table '" ++ tname ++ "' already exists"), db)
  | none =>
      (.ok (), { db with tables := db.tables ++
        [{ name := tname, fields := fields, flexible := flexible, nextId := 1, rows := [] }] })

/-- Modelled from the spec: `insert(table, data)` (spec §4.2) — schema
validation, uniqueness scan over all live rows, then append a row under the
next surrogate id; any violation fails with no partial insert. -/
def insert (db : Database) (tname : String) (data : RowData) :
    Except String Nat × Database :=
  match getTable db tname with
  | none => (.error ("Table '" ++ tname ++ "' not found"), db)
  | some tbl =>
      match validate tbl.fields tbl.flexible data with
      | .error e => (.error e, db)
      | .ok _ =>
          if uniqueConflictRows tbl.fields data tbl.rows then
            (.error "Unique constraint violation", db)
          else
            let rid := tbl.nextId
            (.ok rid, setTable db tname
              { tbl with nextId := rid + 1, rows := tbl.rows ++ [{ id := rid, data := data }] })

/-- Comparison operators of ad-hoc predicates (spec §4.2). -/
inductive CmpOp where
  | eq | ne | lt | le | gt | ge
deriving DecidableEq, Repr

/-- Constructor rank, used to totalise the value order across types. -/
def Value.rank : Value → Nat
  | .str _ => 0
  | .int _ => 1
  | .bool _ => 2
  | .float _ => 3

/-- Modelled from the spec: the natural ordering on field values (numeric,
lexicographic, boolean false<true; spec §4.3), totalised across types by
constructor rank. -/
def valueLe (a b : Value) : Bool :=
  match a, b with
  | .str x, .str y => decide (x ≤ y)
  | .int x, .int y => decide (x ≤ y)
  | .bool x, .bool y => decide (x ≤ y)
  | .float x, .float y => decide (x ≤ y)
  | _, _ => decide (a.rank ≤ b.rank)

/-- Evaluate a comparison operator on values. -/
def cmpValues (op : CmpOp) (a b : Value) : Bool :=
  match op with
  | .eq => decide (a = b)
  | .ne => !decide (a = b)
  | .le => valueLe a b
  | .lt => valueLe a b && !valueLe b a
  | .ge => valueLe b a
  | .gt => valueLe b a && !valueLe a b

/-- Modelled from the spec: a row selector — a single id or a comparison
predicate `(field, op, value)` (spec §4.2). -/
inductive Selector where
  | byId (id : Nat)
  | cmp (field : String) (op : CmpOp) (value : Value)
deriving DecidableEq, Repr

/-- Does a row match a selector? A missing field matches no comparison. -/
def rowMatches (sel : Selector) (r : Row) : Bool :=
  match sel with
  | .byId i => r.id == i
  | .cmp f op v =>
      match alookup r.data f with
      | some w => cmpValues op w v
      | none => false

/-- Apply `changes` on top of `data` (dict update). -/
def mergeData (data changes : RowData) : RowData :=
  changes.foldl (fun d kv => aset d kv.1 kv.2) data

/-- Worker for `update`: walks the row list, re-validating each matching
row's merged result (uniqueness scanned against all other rows, the row
itself excluded); a row that fails is left untouched and not counted
(spec §4.2). -/
def updateGo (fields : List (String × FieldSpec)) (flexible : Bool)
    (sel : Selector) (changes : RowData) :
    List Row → List Row → List Row × Nat
  | before, [] => (before, 0)
  | before, r :: rest =>
      if rowMatches sel r then
        let merged := mergeData r.data changes
        if (validate fields flexible merged).toBool
            && !uniqueConflictRows fields merged (before ++ rest) then
          let out := updateGo fields flexible sel changes
            (before ++ [{ r with data := merged }]) rest
          (out.1, out.2 + 1)
        else
          updateGo fields flexible sel changes (before ++ [r]) rest
      else
        updateGo fields flexible sel changes (before ++ [r]) rest

/-- Modelled from the spec: `update(table, selector, changes)` (spec §4.2) —
applies the changes to every matching row, per-row validation, returns the
count of rows updated. -/
def update (db : Database) (tname : String) (sel : Selector) (changes : RowData) :
    Except String Nat × Database :=
  match getTable db tname with
  | none => (.error ("Table '" ++ tname ++ "' not found"), db)
  | some tbl =>
      let res := updateGo tbl.fields tbl.flexible sel changes [] tbl.rows
      (.ok res.2, setTable db tname { tbl with rows := res.1 })

/-- Modelled from the spec: `remove(table, selector)` — deletes all matching
rows, returns the count removed (spec §4.2). -/
def remove (db : Database) (tname : String) (sel : Selector) :
    Except String Nat × Database :=
  match getTable db tname with
  | none => (.error ("Table '" ++ tname ++ "' not found"), db)
  | some tbl =>
      let kept := tbl.rows.filter (fun r => !rowMatches sel r)
      (.ok (tbl.rows.length - kept.length), setTable db tname { tbl with rows := kept })

/-- Modelled from the spec: `fetch_all(table, selector?)` — matching rows in
insertion order, unfiltered when the selector is omitted (spec §4.2). -/
def fetch_all (db : Database) (tname : String) (sel : Option Selector) :
    Except String (List Row) :=
  match getTable db tname with
  | none => .error ("Table '" ++ tname ++ "' not found")
  | some tbl =>
      .ok (match sel with
        | none => tbl.rows
        | some s => tbl.rows.filter (rowMatches s))

/-- Modelled from the spec: a `Query` builder over one table — conjunction
of `where_eq` clauses, optional stable `order_by`, optional `take`
(spec §4.3). -/
structure Query where
  table : String
  wheres : List (String × Value) := []
  ordering : Option (String × Bool) := none
  limit : Option Nat := none
deriving DecidableEq, Repr

/-- `Query(T)`: the builder over table `T` with no clauses. -/
def Query.new (t : String) : Query :=
  { table := t }

/-- `where_eq(field, value)`: adds an equality clause (AND semantics). -/
def Query.where_eq (q : Query) (f : String) (v : Value) : Query :=
  { q with wheres := q.wheres ++ [(f, v)] }

/-- `order_by(field, ascending)`: sets the stable sort. -/
def Query.order_by (q : Query) (f : String) (asc : Bool) : Query :=
  { q with ordering := some (f, asc) }

/-- `take(n)`: truncates the filtered, sorted result to the first `n`. -/
def Query.take (q : Query) (n : Nat) : Query :=
  { q with limit := some n }

/-- Does a row satisfy every `where_eq` clause? -/
def wherePred (ws : List (String × Value)) (r : Row) : Bool :=
  ws.all (fun kv => decide (alookup r.data kv.1 = some kv.2))

/-- The sort key of a row for field `f` (absent fields sort first). -/
def keyOf (f : String) (r : Row) : Option Value :=
  alookup r.data f

/-- Ordering on optional sort keys: a missing key sorts before any value. -/
def optValueLe (a b : Option Value) : Bool :=
  match a, b with
  | none, _ => true
  | some _, none => false
  | some x, some y => valueLe x y

/-- Row comparison for `order_by(f, asc)`; descending flips the key order
(ties still keep insertion order under a stable sort). -/
def rowCmp (f : String) (asc : Bool) (a b : Row) : Bool :=
  if asc then optValueLe (keyOf f a) (keyOf f b)
  else optValueLe (keyOf f b) (keyOf f a)

/-- Modelled from the spec: query execution over a table's rows —
always filter, then stable sort, then limit (spec §4.3). -/
def runQueryRows (rows : List Row) (q : Query) : List Row :=
  let filtered := rows.filter (wherePred q.wheres)
  let sorted :=
    match q.ordering with
    | none => filtered
    | some fa => filtered.mergeSort (rowCmp fa.1 fa.2)
  match q.limit with
  | none => sorted
  | some n => sorted.take n

/-- Modelled from the spec: `Database.query` — run a `Query` against its
table (spec §4.3). -/
def query (db : Database) (q : Query) : Except String (List Row) :=
  match getTable db q.table with
  | none => .error ("Table '" ++ q.table ++ "' not found")
  | some tbl => .ok (runQueryRows tbl.rows q)

/-- The edge record built from `link`/`unlink` arguments. -/
def mkEdge (tA : String) (idA : Nat) (label : String) (tB : String) (idB : Nat) : Edge :=
  { fromTable := tA, fromId := idA, label := label, toTable := tB, toId := idB }

/-- Modelled from the spec: `link(tA,idA,label,tB,idB)` appends an edge;
duplicates permitted (spec §4.4). -/
def link (db : Database) (tA : String) (idA : Nat) (label : String)
    (tB : String) (idB : Nat) : Database :=
  { db with relations := db.relations ++ [mkEdge tA idA label tB idB] }

/-- Remove the first exact occurrence of an edge from a list. -/
def eraseFirstEdge : List Edge → Edge → List Edge
  | [], _ => []
  | x :: rest, e => if x = e then rest else x :: eraseFirstEdge rest e

/-- Modelled from the spec: `unlink(tA,idA,label,tB,idB)` removes at most
one exact-match edge and returns 1 if found else 0 (spec §4.4). -/
def unlink (db : Database) (tA : String) (idA : Nat) (label : String)
    (tB : String) (idB : Nat) : Nat × Database :=
  let e : Edge := mkEdge tA idA label tB idB
  if db.relations.contains e then
    (1, { db with relations := eraseFirstEdge db.relations e })
  else
    (0, db)

/-- Does an edge start at `(t, i)` with label `label`? -/
def edgeFromMatches (t : String) (i : Nat) (label : String) (e : Edge) : Bool :=
  e.fromTable == t && e.fromId == i && e.label == label

/-- Modelled from the spec: `walk(table,id,label)` — the ordered sequence of
`(toTable, toId)` of matching edges, in insertion order (spec §4.4). -/
def walk (db : Database) (t : String) (i : Nat) (label : String) :
    List (String × Nat) :=
  (db.relations.filter (edgeFromMatches t i label)).map (fun e => (e.toTable, e.toId))

/-- Modelled from the spec: `put(key, value)` overwrites (spec §4.5). -/
def put (db : Database) (k : String) (v : Value) : Database :=
  { db with kv := aset db.kv k v }

/-- Modelled from the spec: `get(key)` — the current value or a not-found
failure (spec §4.5). -/
def kvGet (db : Database) (k : String) : Except String Value :=
  match alookup db.kv k with
  | some v => .ok v
  | none => .error ("Key '" ++ k ++ "' not found")

/-- The captured copy of the four data stores. -/
def captureState (db : Database) : StoreState :=
  { tables := db.tables, relations := db.relations, kv := db.kv }

/-- Modelled from the spec: `checkpoint(name)` deep-copies the store state
under `name`, replacing any prior snapshot of that name (spec §4.6). -/
def checkpoint (db : Database) (name : String) : Database :=
  { db with snapshots := aset db.snapshots name (captureState db) }

/-- Modelled from the spec: `rollback_to(name)` — fails `NotFound` for an
unknown name, else atomically replaces all live store state with the
captured copy (spec §4.6). -/
def rollback_to (db : Database) (name : String) : Except String Unit × Database :=
  match alookup db.snapshots name with
  | none => (.error ("Checkpoint '" ++ name ++ "' not found"), db)
  | some s =>
      (.ok (), { db with tables := s.tables, relations := s.relations, kv := s.kv })

/-- Structured results of the command interpreter. -/
inductive SqlResult where
  | unit
  | nat (n : Nat)
  | names (l : List String)
deriving DecidableEq, Repr

/-- Fixed maximum command length (spec §4.7: a fixed maximum, observed
threshold well below 5,000 characters). -/
def MAX_COMMAND_LENGTH : Nat := 4096

/-- Configured batch-session command limit (spec §4.7, 512 observed). -/
def BATCH_LIMIT : Nat := 512

/-- Maximum ingest payload size (spec §4.7, 2 MiB observed). -/
def MAX_INGEST_SIZE : Nat := 2 * 1024 * 1024

/-- Drop leading whitespace characters. -/
def dropLeadingWs : List Char → List Char
  | [] => []
  | c :: rest => if c.isWhitespace then dropLeadingWs rest else c :: rest

/-- Strip leading and trailing whitespace (python `str.strip`). -/
def strTrim (s : String) : String :=
  String.mk ((dropLeadingWs (dropLeadingWs s.data).reverse).reverse)

/-- Uppercase every character (python `str.upper`, ASCII letters). -/
def strUpper (s : String) : String :=
  String.mk (s.data.map Char.toUpper)

/-- Split a character list on a separator character, keeping empty pieces. -/
def splitChar (sep : Char) : List Char → List Char → List (List Char)
  | acc, [] => [acc.reverse]
  | acc, c :: rest =>
      if c = sep then acc.reverse :: splitChar sep [] rest
      else splitChar sep (c :: acc) rest

/-- Whitespace tokenization of a command line. -/
def tokenize (line : String) : List String :=
  ((splitChar ' ' [] line.data).filter (fun w => w ≠ [])).map String.mk

/-- String comparison for DESCRIBE's lexicographic sort. -/
def strLe (a b : String) : Bool :=
  decide (a ≤ b)

/-- Verb dispatch of the command interpreter (spec §4.7), after the length
and batch checks have passed and the line was appended to history. -/
def dispatchCommand (db : Database) (line : String) :
    Except String SqlResult × Database :=
  match tokenize line with
  | [] => (.error "Empty command", db)
  | verb :: args =>
      let v := strUpper verb
      if v = "COUNT" then
        match args with
        | [] => (.error "COUNT requires a table name", db)
        | t :: _ =>
            match getTable db t with
            | none => (.error ("Table '" ++ t ++ "' not found"), db)
            | some tbl => (.ok (.nat tbl.rows.length), db)
      else if v = "DESCRIBE" then
        match args with
        | [] => (.error "DESCRIBE requires a table name", db)
        | t :: _ =>
            match getTable db t with
            | none => (.error ("Table '" ++ t ++ "' not found"), db)
            | some tbl => (.ok (.names ((tbl.fields.map Prod.fst).mergeSort strLe)), db)
      else if v = "TABLES" then
        (.ok (.names (db.tables.map (fun t => t.name))), db)
      else if v = "HISTORY" then
        (.ok (.names db.history), db)
      else if v = "ALIAS" then
        match args with
        | aname :: c :: cs =>
            (.ok .unit, { db with aliases := aset db.aliases aname (String.intercalate " " (c :: cs)) })
        | _ => (.error "ALIAS format: ALIAS name command", db)
      else if v = "BATCH" then
        (.ok .unit, { db with batchActive := true, batchCount := 0 })
      else
        (.error ("Unknown command: " ++ verb), db)

/-- Modelled from the spec: `execute_sql` of the missing core — rejects
over-length input before any tokenizing, enforces the batch-session limit,
appends every accepted command to the history log, then dispatches the verb
(spec §4.7). -/
def execute_sql (db : Database) (line : String) : Except String SqlResult × Database :=
  if line.length > MAX_COMMAND_LENGTH then
    (.error "Command exceeds max length", db)
  else if db.batchActive && decide (BATCH_LIMIT ≤ db.batchCount) then
    (.error "Batch operation limit exceeded", db)
  else
    let db1 := if db.batchActive then { db with batchCount := db.batchCount + 1 } else db
    dispatchCommand { db1 with history := db1.history ++ [line] } line

/-- Modelled from the spec: `ingest(payload)` — an opaque blob bounded by a
fixed maximum size; oversize payloads fail before any processing; accepted
payloads go to a pluggable bulk-loader whose structure is an external
contract (spec §4.7, §9), modelled as leaving the stores unchanged. -/
def ingest (db : Database) (payload : String) : Except String Unit × Database :=
  if payload.length > MAX_INGEST_SIZE then
    (.error "INGEST payload exceeds max size", db)
  else
    (.ok (), db)

/-- Modelled from the spec: the content of a file the bridge can read — a
line-delimited-record file (with its byte size and parsed lines, `none` for
a malformed line) or a portable relational file (tables of rows). -/
inductive FileData where
  | jsonl (size : Nat) (lines : List (Option RowData))
  | sqlite (tables : List (String × List RowData))
deriving DecidableEq

/-- The modelled filesystem: path → file content. -/
abbrev FileSystem := List (String × FileData)

/-- A filesystem access performed by a bridge operation. -/
inductive FsEvent where
  | read (path : String)
  | write (path : String)
deriving DecidableEq, Repr

/-- Maximum JSONL import file size (spec §4.8, 10 MiB observed). -/
def MAX_JSONL_SIZE : Nat := 10 * 1024 * 1024

/-- Maximum JSONL import line count (spec §4.8, 100,000 observed). -/
def MAX_JSONL_LINES : Nat := 100000

/-- The `/`-separated segments of a path. -/
def pathSegments (p : String) : List String :=
  (splitChar '/' [] p.data).map String.mk

/-- Modelled from the spec: path validation — any parent-segment escape
(`..` segment) is a traversal violation, independent of file existence
(spec §4.8). -/
def validPath (p : String) : Bool :=
  !(pathSegments p).contains ".."

/-- Modelled from the spec: the conservative identifier character set for
names crossing the relational-file boundary (spec §4.8). -/
def validIdentifier (s : String) : Bool :=
  s ≠ "" && s.toList.all (fun c => c.isAlphanum || c = '_')

/-- Insert a list of rows in order; the first failure aborts with its error
(the caller keeps the original state: all-or-nothing, spec §4.8). -/
def insertMany (db : Database) (tname : String) :
    List RowData → Except String (Database × Nat)
  | [] => .ok (db, 0)
  | d :: ds =>
      match insert db tname d with
      | (.error e, _) => .error e
      | (.ok _, db1) =>
          match insertMany db1 tname ds with
          | .error e => .error e
          | .ok (db2, n) => .ok (db2, n + 1)

/-- All lines parse, or the import is malformed. -/
def parseAllLines : List (Option RowData) → Option (List RowData)
  | [] => some []
  | none :: _ => none
  | some d :: rest => (parseAllLines rest).map (fun ds => d :: ds)

/-- Modelled from the spec: `export_jsonl(table, path)` — path validation
before any I/O, then one record per row is written (spec §4.8); the write
is recorded as a filesystem event. -/
def export_jsonl (db : Database) (tname path : String) :
    Except String Unit × List FsEvent :=
  if !validPath path then (.error "Potential path traversal", [])
  else
    match getTable db tname with
    | none => (.error ("Table '" ++ tname ++ "' not found"), [])
    | some _ => (.ok (), [.write path])

/-- Modelled from the spec: `import_jsonl(table, path)` — path validation
before any I/O, file-size and line-count limits, each line parsed and
inserted through the table store, all-or-nothing (spec §4.8). -/
def import_jsonl (db : Database) (tname path : String) (fs : FileSystem) :
    Except String Nat × Database × List FsEvent :=
  if !validPath path then (.error "Potential path traversal", db, [])
  else
    match alookup fs path with
    | none => (.error ("File '" ++ path ++ "' not found"), db, [.read path])
    | some (.sqlite _) => (.error "Not a JSONL file", db, [.read path])
    | some (.jsonl size lines) =>
        if size > MAX_JSONL_SIZE then
          (.error "JSONL import exceeds max file size", db, [.read path])
        else if lines.length > MAX_JSONL_LINES then
          (.error "JSONL import exceeds max line count", db, [.read path])
        else
          match parseAllLines lines with
          | none => (.error "Malformed JSONL line", db, [.read path])
          | some datas =>
              match insertMany db tname datas with
              | .error e => (.error e, db, [.read path])
              | .ok (db2, n) => (.ok n, db2, [.read path])

/-- Modelled from the spec: `export_sqlite(table, path)` — path validation,
then identifier validation on the table and column names crossing the
boundary, all before any file is touched (spec §4.8). -/
def export_sqlite (db : Database) (tname path : String) :
    Except String Unit × List FsEvent :=
  if !validPath path then (.error "Potential path traversal", [])
  else if !validIdentifier tname then (.error ("invalid identifier: " ++ tname), [])
  else
    match getTable db tname with
    | none => (.error ("Table '" ++ tname ++ "' not found"), [])
    | some tbl =>
        if (tbl.fields.map Prod.fst).all validIdentifier then ((.ok ()), [.write path])
        else (.error "invalid identifier in column names", [])

/-- Modelled from the spec: `import_sqlite(table, path, sourceTableName)` —
path validation, then identifier validation on the destination and source
table names, all before any file is touched; rows of the source table are
inserted through the table store, all-or-nothing (spec §4.8). -/
def import_sqlite (db : Database) (tname path srcTable : String) (fs : FileSystem) :
    Except String Nat × Database × List FsEvent :=
  if !validPath path then (.error "Potential path traversal", db, [])
  else if !validIdentifier tname then (.error ("invalid identifier: " ++ tname), db, [])
  else if !validIdentifier srcTable then (.error ("invalid identifier: " ++ srcTable), db, [])
  else
    match alookup fs path with
    | none => (.error ("File '" ++ path ++ "' not found"), db, [.read path])
    | some (.jsonl _ _) => (.error "Not a SQLite file", db, [.read path])
    | some (.sqlite stables) =>
        match alookup stables srcTable with
        | none => (.error ("Source table '" ++ srcTable ++ "' not found"), db, [.read path])
        | some datas =>
            match insertMany db tname datas with
            | .error e => (.error e, db, [.read path])
            | .ok (db2, n) => (.ok n, db2, [.read path])

/-- The mutating store operations quantified over by the checkpoint/rollback
round-trip property (insert/update/remove/link/unlink/put). -/
inductive Mutation where
  | ins (t : String) (data : RowData)
  | upd (t : String) (sel : Selector) (changes : RowData)
  | rem (t : String) (sel : Selector)
  | lnk (tA : String) (idA : Nat) (label : String) (tB : String) (idB : Nat)
  | unlnk (tA : String) (idA : Nat) (label : String) (tB : String) (idB : Nat)
  | putKV (k : String) (v : Value)

/-- Apply one mutating operation, keeping the resulting state. -/
def applyMutation (db : Database) (m : Mutation) : Database :=
  match m with
  | .ins t d => (insert db t d).2
  | .upd t s c => (update db t s c).2
  | .rem t s => (remove db t s).2
  | .lnk a b c d e => link db a b c d e
  | .unlnk a b c d e => (unlink db a b c d e).2
  | .putKV k v => put db k v

/-- Apply a sequence of mutating operations in order. -/
def applyMutations (db : Database) (ms : List Mutation) : Database :=
  ms.foldl applyMutation db

/-- What the shell prints for a successful result (cli.py lines 65-73:
falsy results print nothing, list results print one bullet per item,
other results print as they are). -/
def renderResult (r : SqlResult) : List String :=
  match r with
  | .unit => []
  | .nat n => if n = 0 then [] else [toString n]
  | .names l =>
      if l.isEmpty then [] else l.map (fun s => " • " ++ s)

/-- The interactive shell loop of cli.py (lines 54-77): reads a line,
stops on EXIT or end of input, otherwise executes the command; a failure
is caught, its message printed, and the loop continues with the next line.
The state threads through both successful and failing commands. -/
def shellRun (step : Database → String → Except String SqlResult × Database)
    (db : Database) : List String → List String
  | [] => []
  | line :: rest =>
      let l := strTrim line
      if strUpper l = "EXIT" then []
      else
        match step db l with
        | (.ok r, db2) => renderResult r ++ shellRun step db2 rest
        | (.error e, db2) => e :: shellRun step db2 rest

/-! ## Concrete fixtures (used by witness theorems) -/

/-- The `users` schema of the test suite. -/
def usersFields : List (String × FieldSpec) :=
  [("name", { type := .string, required := true }),
   ("email", { type := .string, required := true, unique := true }),
   ("age", { type := .integer }),
   ("is_active", { type := .boolean })]

/-- A fresh database holding the strict `users` table. -/
def usersDb : Database :=
  (create_table emptyDb "users" usersFields false).2

/-- Alice's row data from the test suite. -/
def aliceData : RowData :=
  [("name", .str "Alice"), ("email", .str "alice@example.com"),
   ("age", .int 30), ("is_active", .bool true)]

/-- Bob's row data from the test suite. -/
def bobData : RowData :=
  [("name", .str "Bob"), ("email", .str "bob@example.com"),
   ("age", .int 25), ("is_active", .bool false)]

/-- The database after inserting Alice and Bob. -/
def twoUsersDb : Database :=
  (insert (insert usersDb "users" aliceData).2 "users" bobData).2

/-- A row with a field outside the strict schema (test
`test_unknown_field_rejected`). -/
def eveData : RowData :=
  [("name", .str "Eve"), ("email", .str "eve@example.com"), ("role", .str "admin")]

/-- A 5,000-character command line (test
`test_dos_limits_command_batch_and_ingest`). -/
def longCommand : String :=
  String.mk (List.replicate 5000 'A')

/-- A shell step that always fails, exercising the error path of the loop. -/
def failingStep : Database → String → Except String SqlResult × Database :=
  fun db _ => (.error "boom", db)

/-- A one-row JSONL file fixture. -/
def anaJsonl : FileData :=
  .jsonl 64 [some [("name", .str "Ana"), ("email", .str "ana@example.com"), ("age", .int 30)]]

/-- A one-row relational-file fixture with source table `users`. -/
def anaSqlite : FileData :=
  .sqlite [("users", [[("name", .str "Ana"), ("email", .str "ana@example.com"), ("age", .int 30)]])]

/-- The modelled filesystem holding both fixture files. -/
def fixtureFs : FileSystem :=
  [("users.jsonl", anaJsonl), ("users.sqlite", anaSqlite)]

/-- Row count of a table (0 for an unknown table). -/
def rowCount (db : Database) (tname : String) : Nat :=
  match getTable db tname with
  | some tbl => tbl.rows.length
  | none => 0

/-- The `users` table record as `create_table` registers it. -/
def usersTable : Table :=
  { name := "users", fields := usersFields, flexible := false, nextId := 1, rows := [] }

/-- The `users` table record after inserting Alice and Bob. -/
def twoUsersTable : Table :=
  { name := "users", fields := usersFields, flexible := false, nextId := 3,
    rows := [{ id := 1, data := aliceData }, { id := 2, data := bobData }] }

/-- Iterated execution of the `TABLES` command (used for the batch limit). -/
def iterTables (db : Database) : Nat → Database
  | 0 => db
  | n + 1 => (execute_sql (iterTables db n) "TABLES").2

/-- A duplicate row of Eve's data sharing Alice's unique email. -/
def dupEmailData : RowData :=
  [("name", .str "Eve2"), ("email", .str "alice@example.com")]

/-- Two row-data maps share no value on any of the listed unique fields. -/
def noShared (uniq : List String) (d1 d2 : RowData) : Prop :=
  ∀ f ∈ uniq, ∀ v : Value, alookup d1 f = some v → alookup d2 f = some v → False

/-- No two live rows of the table hold equal values of any unique field. -/
def tableOk (tbl : Table) : Prop :=
  List.Pairwise (fun a b => noShared (uniqueFieldNames tbl.fields) a.data b.data) tbl.rows

/-- Every table of a store satisfies the uniqueness invariant. -/
def storesOk (tables : List Table) : Prop :=
  ∀ tbl ∈ tables, tableOk tbl

/-- The uniqueness invariant over the live tables and every snapshot. -/
def dbOk (db : Database) : Prop :=
  storesOk db.tables ∧ ∀ p ∈ db.snapshots, storesOk p.2.tables

/-- Engine states reachable from the fresh engine by the public operations. -/
inductive Reachable : Database → Prop where
  | init : Reachable emptyDb
  | createTable (db : Database) (t : String) (fields : List (String × FieldSpec))
      (flex : Bool) : Reachable db → Reachable (create_table db t fields flex).2
  | ins (db : Database) (t : String) (d : RowData) :
      Reachable db → Reachable (insert db t d).2
  | upd (db : Database) (t : String) (sel : Selector) (c : RowData) :
      Reachable db → Reachable (update db t sel c).2
  | rem (db : Database) (t : String) (sel : Selector) :
      Reachable db → Reachable (remove db t sel).2
  | lnk (db : Database) (tA : String) (idA : Nat) (label : String) (tB : String)
      (idB : Nat) : Reachable db → Reachable (link db tA idA label tB idB)
  | unlnk (db : Database) (tA : String) (idA : Nat) (label : String) (tB : String)
      (idB : Nat) : Reachable db → Reachable (unlink db tA idA label tB idB).2
  | putKV (db : Database) (k : String) (v : Value) :
      Reachable db → Reachable (put db k v)
  | chk (db : Database) (n : String) : Reachable db → Reachable (checkpoint db n)
  | rb (db : Database) (n : String) : Reachable db → Reachable (rollback_to db n).2
  | exec (db : Database) (line : String) :
      Reachable db → Reachable (execute_sql db line).2
  | ing (db : Database) (p : String) : Reachable db → Reachable (ingest db p).2
  | imj (db : Database) (t path : String) (fs : FileSystem) :
      Reachable db → Reachable (import_jsonl db t path fs).2.1
  | ims (db : Database) (t path src : String) (fs : FileSystem) :
      Reachable db → Reachable (import_sqlite db t path src fs).2.1

/-! ## Helper lemmas -/

theorem alookup_aset_self {β : Type} (l : List (String × β)) (k : String) (v : β) :
    alookup (aset l k v) k = some v := by
  induction l with
  | nil => simp [aset, alookup]
  | cons p rest ih =>
      by_cases h : p.1 = k
      · simp [aset, h, alookup]
      · simp [aset, h, alookup, ih]

theorem insert_snapshots (db : Database) (t : String) (d : RowData) :
    (insert db t d).2.snapshots = db.snapshots := by
  unfold insert
  split
  · rfl
  · split
    · rfl
    · split
      · rfl
      · rfl

theorem update_snapshots (db : Database) (t : String) (s : Selector) (c : RowData) :
    (update db t s c).2.snapshots = db.snapshots := by
  unfold update
  split
  · rfl
  · rfl

theorem remove_snapshots (db : Database) (t : String) (s : Selector) :
    (remove db t s).2.snapshots = db.snapshots := by
  unfold remove
  split
  · rfl
  · rfl

theorem applyMutation_snapshots (db : Database) (m : Mutation) :
    (applyMutation db m).snapshots = db.snapshots := by
  cases m with
  | ins t d => exact insert_snapshots db t d
  | upd t s c => exact update_snapshots db t s c
  | rem t s => exact remove_snapshots db t s
  | lnk a b c d e => rfl
  | unlnk a b c d e =>
      show (unlink db a b c d e).2.snapshots = db.snapshots
      unfold unlink
      dsimp only
      split
      · rfl
      · rfl
  | putKV k v => rfl

theorem applyMutations_snapshots (ms : List Mutation) (db : Database) :
    (applyMutations db ms).snapshots = db.snapshots := by
  induction ms generalizing db with
  | nil => rfl
  | cons m rest ih =>
      show (applyMutations (applyMutation db m) rest).snapshots = db.snapshots
      rw [ih, applyMutation_snapshots]

/-! ## Claim theorems -/

/-- C1: for every state, snapshot name and sequence of mutating operations
(insert/update/remove/link/unlink/put), `checkpoint(name)` then the
mutations then `rollback_to(name)` succeeds and restores all four stores —
tables with their rows, relations and kv — to exactly the state at
checkpoint time. -/
theorem checkpoint_rollback_roundtrip (db : Database) (name : String)
    (ms : List Mutation) :
    (rollback_to (applyMutations (checkpoint db name) ms) name).1 = .ok () ∧
    (rollback_to (applyMutations (checkpoint db name) ms) name).2.tables = db.tables ∧
    (rollback_to (applyMutations (checkpoint db name) ms) name).2.relations = db.relations ∧
    (rollback_to (applyMutations (checkpoint db name) ms) name).2.kv = db.kv := by
  have hsnap : (applyMutations (checkpoint db name) ms).snapshots
      = aset db.snapshots name (captureState db) := by
    rw [applyMutations_snapshots]
    rfl
  have hlook : alookup (applyMutations (checkpoint db name) ms).snapshots name
      = some (captureState db) := by
    rw [hsnap]
    exact alookup_aset_self _ _ _
  unfold rollback_to
  rw [hlook]
  exact ⟨rfl, rfl, rfl, rfl⟩

/-- C4: inserting into a strict-mode table a row holding a key not declared
in the schema fails with the schema-membership error naming that field, and
leaves the database (hence the table) unchanged. -/
theorem insert_unknown_field_rejected (db : Database) (tname : String)
    (tbl : Table) (data : RowData)
    (hget : getTable db tname = some tbl)
    (hflex : tbl.flexible = false)
    (hbad : ∃ kv ∈ data, ((tbl.fields.map Prod.fst).contains kv.1) = false) :
    ∃ k, (∃ v, (k, v) ∈ data) ∧ ((tbl.fields.map Prod.fst).contains k) = false ∧
      insert db tname data = (.error ("Field '" ++ k ++ "' is not part of the schema"), db) := by
  have hfind : (data.find? (fun kv => !((tbl.fields.map Prod.fst).contains kv.1))).isSome := by
    rw [List.find?_isSome]
    obtain ⟨kv, hmem, hk⟩ := hbad
    exact ⟨kv, hmem, by rw [hk]; rfl⟩
  obtain ⟨kv0, hkv0⟩ := Option.isSome_iff_exists.mp hfind
  have hmem0 := List.mem_of_find?_eq_some hkv0
  have hpred0 := List.find?_some hkv0
  have hcont : ((tbl.fields.map Prod.fst).contains kv0.1) = false := by
    revert hpred0
    cases (tbl.fields.map Prod.fst).contains kv0.1 <;> simp
  refine ⟨kv0.1, ⟨kv0.2, hmem0⟩, hcont, ?_⟩
  unfold insert
  rw [hget]
  dsimp only
  unfold validate
  rw [hflex, hkv0]
  rfl

/-- C8: a command line longer than the fixed maximum command length (a
threshold below 5,000 characters) is rejected by `execute_sql` with the
length-exceeded error before any tokenizing or dispatch, leaving the engine
state — including the history log and batch counter — unchanged. -/
theorem execute_sql_overlong_rejected (db : Database) (line : String)
    (h : line.length > MAX_COMMAND_LENGTH) :
    execute_sql db line = (.error "Command exceeds max length", db) := by
  unfold execute_sql
  rw [if_pos h]

/-- C8 witness: the 5,000-character command of the test suite is over the
threshold and is rejected unchanged on the fresh database. -/
theorem execute_sql_overlong_rejected_witness :
    longCommand.length > MAX_COMMAND_LENGTH ∧
    execute_sql emptyDb longCommand = (.error "Command exceeds max length", emptyDb) := by
  have hlen : longCommand.length = 5000 := by
    show (List.replicate 5000 'A').length = 5000
    rw [List.length_replicate]
  refine ⟨?_, ?_⟩
  · rw [hlen]; decide
  · exact execute_sql_overlong_rejected emptyDb longCommand (by rw [hlen]; decide)

/-- C9: the shell loop (cli.py lines 54-77) catches a failing command,
prints its message, and continues with the remaining input lines — a failed
command never terminates the session. -/
theorem shell_continues_after_failure
    (step : Database → String → Except String SqlResult × Database)
    (db db2 : Database) (line : String) (rest : List String) (e : String)
    (hexit : strUpper (strTrim line) ≠ "EXIT")
    (hfail : step db (strTrim line) = (.error e, db2)) :
    shellRun step db (line :: rest) = e :: shellRun step db2 rest := by
  conv_lhs => rw [shellRun]
  simp only [if_neg hexit, hfail]

/-- C9 witness: a step that always fails on the line `COUNT` prints the
message and the loop continues with the next line. -/
theorem shell_continues_after_failure_witness :
    shellRun failingStep emptyDb ["COUNT", "TABLES"]
      = "boom" :: shellRun failingStep emptyDb ["TABLES"] :=
  shell_continues_after_failure failingStep emptyDb emptyDb "COUNT" ["TABLES"] "boom"
    (by decide) rfl

/-- C4 witness: the test-suite row with the undeclared `role` field is
rejected by the strict `users` table with the schema-membership error, the
database unchanged. -/
theorem insert_unknown_field_rejected_witness :
    ∃ k, (∃ v, (k, v) ∈ eveData) ∧ ((usersTable.fields.map Prod.fst).contains k) = false ∧
      insert usersDb "users" eveData
        = (.error ("Field '" ++ k ++ "' is not part of the schema"), usersDb) :=
  insert_unknown_field_rejected usersDb "users" usersTable eveData rfl rfl (by decide)

theorem eraseFirstEdge_of_not_mem (l : List Edge) (e : Edge) (h : e ∉ l) :
    eraseFirstEdge l e = l := by
  induction l with
  | nil => rfl
  | cons x rest ih =>
      have hx : ¬(x = e) := fun hc => h (hc ▸ List.mem_cons_self x rest)
      have hr : e ∉ rest := fun hc => h (List.mem_cons_of_mem x hc)
      simp [eraseFirstEdge, hx, ih hr]

theorem count_eraseFirstEdge_self (l : List Edge) (e : Edge) (h : e ∈ l) :
    List.count e (eraseFirstEdge l e) = List.count e l - 1 := by
  induction l with
  | nil => cases h
  | cons x rest ih =>
      by_cases hx : x = e
      · subst hx
        simp [eraseFirstEdge, List.count_cons]
      · have hr : e ∈ rest := by
          cases List.mem_cons.mp h with
          | inl h1 => exact absurd h1.symm hx
          | inr h2 => exact h2
        have hne : ¬(e = x) := fun hc => hx hc.symm
        simp [eraseFirstEdge, hx, List.count_cons, hne, ih hr]

theorem count_eraseFirstEdge_ne (l : List Edge) (e e2 : Edge) (h : e2 ≠ e) :
    List.count e2 (eraseFirstEdge l e) = List.count e2 l := by
  induction l with
  | nil => rfl
  | cons x rest ih =>
      by_cases hx : x = e
      · subst hx
        simp [eraseFirstEdge, List.count_cons, h]
      · simp [eraseFirstEdge, hx, List.count_cons, ih]

theorem count_walk_erase_append (tA : String) (idA : Nat) (label : String)
    (tB : String) (idB : Nat) (rel : List Edge) :
    List.count (tB, idB)
      (((eraseFirstEdge (rel ++ [mkEdge tA idA label tB idB]) (mkEdge tA idA label tB idB)).filter
        (edgeFromMatches tA idA label)).map (fun e => (e.toTable, e.toId)))
      = List.count (tB, idB)
          ((rel.filter (edgeFromMatches tA idA label)).map (fun e => (e.toTable, e.toId))) := by
  induction rel with
  | nil => simp [eraseFirstEdge]
  | cons x rest ih =>
      by_cases hx : x = mkEdge tA idA label tB idB
      · subst hx
        simp [eraseFirstEdge, List.filter_append, List.filter_cons, edgeFromMatches, mkEdge,
          List.count_append, List.count_cons]
      · by_cases px : edgeFromMatches tA idA label x = true
        · simp only [List.cons_append, eraseFirstEdge, if_neg hx, List.filter_cons, px, if_true,
            List.map_cons, List.count_cons, List.append_eq]
          rw [ih]
        · simp only [List.cons_append, eraseFirstEdge, if_neg hx, List.filter_cons, px,
            Bool.false_eq_true, if_false, List.append_eq]
          exact ih

/-- C7: `link` appends a matching edge so `walk` returns its target once
more, at the end (insertion order); `unlink` removes exactly one exact-match
edge when present (other edges untouched) and returns 1, or returns 0
leaving the relation store unchanged; after `link` then `unlink` of the same
arguments, `walk` returns the target exactly as often as before. -/
theorem link_walk_unlink_roundtrip (db : Database) (tA : String) (idA : Nat)
    (label : String) (tB : String) (idB : Nat) :
    walk (link db tA idA label tB idB) tA idA label
      = walk db tA idA label ++ [(tB, idB)] ∧
    (unlink db tA idA label tB idB).1
      = (if mkEdge tA idA label tB idB ∈ db.relations then 1 else 0) ∧
    List.count (mkEdge tA idA label tB idB) (unlink db tA idA label tB idB).2.relations
      = List.count (mkEdge tA idA label tB idB) db.relations
        - (if mkEdge tA idA label tB idB ∈ db.relations then 1 else 0) ∧
    (∀ e2 : Edge, e2 ≠ mkEdge tA idA label tB idB →
      List.count e2 (unlink db tA idA label tB idB).2.relations = List.count e2 db.relations) ∧
    List.count (tB, idB)
      (walk (unlink (link db tA idA label tB idB) tA idA label tB idB).2 tA idA label)
      = List.count (tB, idB) (walk db tA idA label) := by
  refine ⟨?_, ?_, ?_, ?_, ?_⟩
  · simp [walk, link, List.filter_append, List.filter_cons, edgeFromMatches, mkEdge]
  · unfold unlink
    dsimp only
    by_cases hm : mkEdge tA idA label tB idB ∈ db.relations
    · rw [if_pos (by simpa using hm), if_pos hm]
    · rw [if_neg (by simpa using hm), if_neg hm]
  · unfold unlink
    dsimp only
    by_cases hm : mkEdge tA idA label tB idB ∈ db.relations
    · rw [if_pos (by simpa using hm), if_pos hm]
      exact count_eraseFirstEdge_self db.relations _ hm
    · rw [if_neg (by simpa using hm), if_neg hm]
      simp
  · intro e2 hne
    unfold unlink
    dsimp only
    by_cases hm : mkEdge tA idA label tB idB ∈ db.relations
    · rw [if_pos (by simpa using hm)]
      exact count_eraseFirstEdge_ne db.relations _ e2 hne
    · rw [if_neg (by simpa using hm)]
  · have hm : mkEdge tA idA label tB idB ∈ (link db tA idA label tB idB).relations := by
      simp [link]
    unfold unlink
    dsimp only
    rw [if_pos (by simpa using hm)]
    show List.count (tB, idB)
      (((eraseFirstEdge (db.relations ++ [mkEdge tA idA label tB idB])
          (mkEdge tA idA label tB idB)).filter
        (edgeFromMatches tA idA label)).map (fun e => (e.toTable, e.toId))) = _
    rw [count_walk_erase_append]
    rfl

/-- C7 witness: linking Alice to a post, walking, then unlinking on the
two-user database behaves as the round trip requires. -/
theorem link_walk_unlink_roundtrip_witness :
    walk (link twoUsersDb "users" 1 "WROTE" "posts" 7) "users" 1 "WROTE" = [("posts", 7)] ∧
    (unlink (link twoUsersDb "users" 1 "WROTE" "posts" 7) "users" 1 "WROTE" "posts" 7).1 = 1 ∧
    List.count ("posts", 7)
      (walk (unlink (link twoUsersDb "users" 1 "WROTE" "posts" 7)
        "users" 1 "WROTE" "posts" 7).2 "users" 1 "WROTE") = 0 := by
  have h := link_walk_unlink_roundtrip twoUsersDb "users" 1 "WROTE" "posts" 7
  have h2 := link_walk_unlink_roundtrip (link twoUsersDb "users" 1 "WROTE" "posts" 7)
    "users" 1 "WROTE" "posts" 7
  refine ⟨?_, ?_, ?_⟩
  · rw [h.1]
    rfl
  · rw [h2.2.1, if_pos (by decide)]
  · rw [h.2.2.2.2]
    rfl

/-- C5: every import/export path containing a parent-segment escape fails
with the path-traversal error, and every table/source-table identifier
outside the conservative character set fails with the invalid-identifier
error, in each case with an empty filesystem trace — the failure happens
before any filesystem access, whether or not the file exists. -/
theorem bridge_validation_before_io (db : Database) (path tname src : String)
    (fs : FileSystem) :
    ((pathSegments path).contains ".." = true →
      export_jsonl db tname path = (.error "Potential path traversal", []) ∧
      import_jsonl db tname path fs = (.error "Potential path traversal", db, []) ∧
      export_sqlite db tname path = (.error "Potential path traversal", []) ∧
      import_sqlite db tname path src fs = (.error "Potential path traversal", db, [])) ∧
    (validPath path = true → validIdentifier tname = false →
      export_sqlite db tname path = (.error ("invalid identifier: " ++ tname), []) ∧
      import_sqlite db tname path src fs = (.error ("invalid identifier: " ++ tname), db, [])) ∧
    (validPath path = true → validIdentifier tname = true → validIdentifier src = false →
      import_sqlite db tname path src fs = (.error ("invalid identifier: " ++ src), db, [])) := by
  refine ⟨?_, ?_, ?_⟩
  · intro hseg
    have hvp : validPath path = false := by
      unfold validPath
      rw [hseg]
      rfl
    refine ⟨?_, ?_, ?_, ?_⟩ <;>
      simp [export_jsonl, import_jsonl, export_sqlite, import_sqlite, hvp]
  · intro hvp hid
    refine ⟨?_, ?_⟩ <;> simp [export_sqlite, import_sqlite, hvp, hid]
  · intro hvp hid hsrc
    simp [import_sqlite, hvp, hid, hsrc]

/-- C5 witness: the test suite's traversal paths and injection-shaped
identifiers are rejected with no filesystem access. -/
theorem bridge_validation_before_io_witness :
    export_jsonl twoUsersDb "users" "../unsafe.jsonl"
      = (.error "Potential path traversal", []) ∧
    import_sqlite twoUsersDb "users" "../unsafe.sqlite" "users" fixtureFs
      = (.error "Potential path traversal", twoUsersDb, []) ∧
    export_sqlite twoUsersDb "users]; DROP TABLE users; --" "safe.sqlite"
      = (.error ("invalid identifier: " ++ "users]; DROP TABLE users; --"), []) ∧
    import_sqlite twoUsersDb "users;bad" "safe.sqlite" "users" fixtureFs
      = (.error ("invalid identifier: " ++ "users;bad"), twoUsersDb, []) := by
  have h1 := bridge_validation_before_io twoUsersDb "../unsafe.jsonl" "users" "users" fixtureFs
  have h2 := bridge_validation_before_io twoUsersDb "../unsafe.sqlite" "users" "users" fixtureFs
  have h3 := bridge_validation_before_io twoUsersDb "safe.sqlite"
    "users]; DROP TABLE users; --" "users" fixtureFs
  have h4 := bridge_validation_before_io twoUsersDb "safe.sqlite" "users;bad" "users" fixtureFs
  exact ⟨(h1.1 (by decide)).1, (h2.1 (by decide)).2.2.2,
    (h3.2.1 (by decide) (by decide)).1, (h4.2.1 (by decide) (by decide)).2⟩

theorem find_map_replace (l : List Table) (tname : String) (tbl2 : Table)
    (hname : tbl2.name = tname)
    (h : (l.find? (fun t => t.name == tname)).isSome) :
    (l.map (fun t => if t.name = tname then tbl2 else t)).find? (fun t => t.name == tname)
      = some tbl2 := by
  induction l with
  | nil => simp at h
  | cons x rest ih =>
      by_cases hx : x.name = tname
      · simp [List.find?, hx, hname]
      · have hrec : ((rest.find? (fun t => t.name == tname)).isSome) := by
          simpa [List.find?_cons, hx] using h
        simpa [List.find?_cons, hx] using ih hrec

theorem getTable_isSome_find {db : Database} {t : String} {tbl : Table}
    (hget : getTable db t = some tbl) :
    (db.tables.find? (fun t2 => t2.name == t)).isSome := by
  unfold getTable at hget
  rw [hget]
  rfl

theorem getTable_name {db : Database} {t : String} {tbl : Table}
    (hget : getTable db t = some tbl) : tbl.name = t := by
  unfold getTable at hget
  have := List.find?_some hget
  simpa using this

theorem rowCount_setTable (db : Database) (t : String) (tbl tbl2 : Table)
    (hget : getTable db t = some tbl) (hname : tbl2.name = t) :
    rowCount (setTable db t tbl2) t = tbl2.rows.length := by
  unfold rowCount getTable setTable
  dsimp only
  rw [find_map_replace db.tables t tbl2 hname (getTable_isSome_find hget)]

theorem insert_ok_state (db : Database) (t : String) (d : RowData) (rid : Nat)
    (db2 : Database) (h : insert db t d = (.ok rid, db2)) :
    ∃ tbl, getTable db t = some tbl ∧ rid = tbl.nextId ∧
      db2 = setTable db t
        { tbl with nextId := tbl.nextId + 1,
                   rows := tbl.rows ++ [{ id := tbl.nextId, data := d }] } := by
  unfold insert at h
  cases hget : getTable db t with
  | none => rw [hget] at h; simp at h
  | some tbl =>
      rw [hget] at h
      dsimp only at h
      cases hval : validate tbl.fields tbl.flexible d with
      | error e => rw [hval] at h; simp at h
      | ok u =>
          rw [hval] at h
          dsimp only at h
          cases hconf : uniqueConflictRows tbl.fields d tbl.rows with
          | true => rw [hconf] at h; simp at h
          | false =>
              rw [hconf] at h
              simp only [Bool.false_eq_true, if_false, Prod.mk.injEq, Except.ok.injEq] at h
              obtain ⟨h1, h2⟩ := h
              exact ⟨tbl, rfl, h1.symm, h2.symm⟩

theorem insert_ok_rowCount (db db2 : Database) (t : String) (d : RowData) (rid : Nat)
    (h : insert db t d = (.ok rid, db2)) :
    rowCount db2 t = rowCount db t + 1 := by
  obtain ⟨tbl, hget, hrid, hdb2⟩ := insert_ok_state db t d rid db2 h
  subst hdb2
  have hname2 : ({ tbl with nextId := tbl.nextId + 1, rows := tbl.rows ++ [{ id := tbl.nextId, data := d }] } : Table).name = t := @getTable_name db t tbl hget
  rw [rowCount_setTable db t tbl _ hget hname2]
  unfold rowCount
  rw [hget]
  simp

theorem insertMany_rowCount (t : String) : ∀ (ds : List RowData) (db db2 : Database) (n : Nat),
    insertMany db t ds = .ok (db2, n) →
    rowCount db2 t = rowCount db t + n ∧ n = ds.length := by
  intro ds
  induction ds with
  | nil =>
      intro db db2 n h
      unfold insertMany at h
      simp only [Except.ok.injEq, Prod.mk.injEq] at h
      obtain ⟨h1, h2⟩ := h
      subst h1; subst h2
      exact ⟨rfl, rfl⟩
  | cons d ds ih =>
      intro db db2 n h
      unfold insertMany at h
      cases hpair : insert db t d with
      | mk r1 db1 =>
          rw [hpair] at h
          cases r1 with
          | error e => simp at h
          | ok rid =>
              dsimp only at h
              cases hrec : insertMany db1 t ds with
              | error e => rw [hrec] at h; simp at h
              | ok p =>
                  obtain ⟨db3, m⟩ := p
                  rw [hrec] at h
                  simp only [Except.ok.injEq, Prod.mk.injEq] at h
                  obtain ⟨h1, h2⟩ := h
                  subst h1
                  obtain ⟨ha, hb⟩ := ih db1 db3 m hrec
                  have hc := insert_ok_rowCount db db1 t d rid hpair
                  subst h2
                  constructor
                  · rw [ha, hc]; omega
                  · simp [hb]

/-- C10: a successful `import_jsonl` or `import_sqlite` returns exactly the
number of rows it added to the destination table. -/
theorem import_count_equals_rows_added (db : Database) (t path src : String)
    (fs : FileSystem) :
    (∀ n db2 evs, import_jsonl db t path fs = (.ok n, db2, evs) →
      rowCount db2 t = rowCount db t + n) ∧
    (∀ n db2 evs, import_sqlite db t path src fs = (.ok n, db2, evs) →
      rowCount db2 t = rowCount db t + n) := by
  constructor
  · intro n db2 evs h
    unfold import_jsonl at h
    split at h
    · simp at h
    · split at h
      · simp at h
      · simp at h
      · split at h
        · simp at h
        · split at h
          · simp at h
          · split at h
            · simp at h
            · split at h
              · simp at h
              · rename_i hmany
                simp only [Prod.mk.injEq, Except.ok.injEq] at h
                obtain ⟨h1, h2, h3⟩ := h
                rw [← h2, ← h1]
                exact (insertMany_rowCount t _ db _ _ hmany).1
  · intro n db2 evs h
    unfold import_sqlite at h
    split at h
    · simp at h
    · split at h
      · simp at h
      · split at h
        · simp at h
        · split at h
          · simp at h
          · simp at h
          · split at h
            · simp at h
            · split at h
              · simp at h
              · rename_i hmany
                simp only [Prod.mk.injEq, Except.ok.injEq] at h
                obtain ⟨h1, h2, h3⟩ := h
                rw [← h2, ← h1]
                exact (insertMany_rowCount t _ db _ _ hmany).1

/-- C10 witness: importing the one-row fixture files adds one row and
returns 1. -/
theorem import_count_equals_rows_added_witness :
    rowCount (import_jsonl usersDb "users" "users.jsonl" fixtureFs).2.1 "users"
      = rowCount usersDb "users" + 1 ∧
    rowCount (import_sqlite usersDb "users" "users.sqlite" "users" fixtureFs).2.1 "users"
      = rowCount usersDb "users" + 1 := by
  constructor
  · exact (import_count_equals_rows_added usersDb "users" "users.jsonl" "users" fixtureFs).1
      1 _ _ rfl
  · exact (import_count_equals_rows_added usersDb "users" "users.sqlite" "users" fixtureFs).2
      1 _ _ rfl

theorem execute_tables_in_batch (db : Database) (hA : db.batchActive = true)
    (hc : db.batchCount < BATCH_LIMIT) :
    execute_sql db "TABLES" =
      (.ok (.names (db.tables.map (fun t => t.name))),
        { db with batchCount := db.batchCount + 1, history := db.history ++ ["TABLES"] }) := by
  have hcond : (db.batchActive && decide (BATCH_LIMIT ≤ db.batchCount)) = false := by
    rw [hA]
    simp [Nat.not_le.mpr hc]
  unfold execute_sql
  rw [if_neg (by decide : ¬ ("TABLES".length > MAX_COMMAND_LENGTH))]
  rw [hcond, hA]
  rfl

theorem execute_sql_batch_exhausted (db : Database) (line : String)
    (hlen : ¬ line.length > MAX_COMMAND_LENGTH)
    (hA : db.batchActive = true) (hc : BATCH_LIMIT ≤ db.batchCount) :
    execute_sql db line = (.error "Batch operation limit exceeded", db) := by
  have hcond : (db.batchActive && decide (BATCH_LIMIT ≤ db.batchCount)) = true := by
    rw [hA]
    simp [hc]
  unfold execute_sql
  rw [if_neg hlen, hcond]
  rfl

theorem iterTables_props (db : Database) (hA : db.batchActive = true)
    (hc0 : db.batchCount = 0) :
    ∀ k, k ≤ BATCH_LIMIT →
      (iterTables db k).batchActive = true ∧ (iterTables db k).batchCount = k ∧
      (iterTables db k).tables = db.tables := by
  intro k
  induction k with
  | zero => intro _; exact ⟨hA, hc0, rfl⟩
  | succ n ih =>
      intro hle
      obtain ⟨h1, h2, h3⟩ := ih (Nat.le_of_succ_le hle)
      have hlt : (iterTables db n).batchCount < BATCH_LIMIT := by
        rw [h2]
        exact hle
      have hstep := execute_tables_in_batch (iterTables db n) h1 hlt
      show (execute_sql (iterTables db n) "TABLES").2.batchActive = true ∧
        (execute_sql (iterTables db n) "TABLES").2.batchCount = n + 1 ∧
        (execute_sql (iterTables db n) "TABLES").2.tables = db.tables
      rw [hstep]
      refine ⟨h1, ?_, h3⟩
      show (iterTables db n).batchCount + 1 = n + 1
      rw [h2]

/-- C6: with no batch session active, `BATCH` opens one; then exactly the
configured number (512) of subsequent commands execute successfully — the
k-th `TABLES` call succeeds for every k below the limit — and every command
after that fails with the batch-limit-exceeded error and is not executed
(the state is returned unchanged). -/
theorem batch_limit_enforced (db : Database) (hA : db.batchActive = false) :
    (execute_sql db "BATCH").1 = .ok .unit ∧
    (∀ k, k < BATCH_LIMIT →
      ∃ l, execute_sql (iterTables (execute_sql db "BATCH").2 k) "TABLES"
        = (.ok (.names l), iterTables (execute_sql db "BATCH").2 (k + 1))) ∧
    (∀ k, BATCH_LIMIT ≤ k →
      execute_sql (iterTables (execute_sql db "BATCH").2 k) "TABLES"
        = (.error "Batch operation limit exceeded",
           iterTables (execute_sql db "BATCH").2 k)) := by
  have hbatch : execute_sql db "BATCH"
      = (.ok .unit,
         { db with history := db.history ++ ["BATCH"], batchActive := true, batchCount := 0 }) := by
    have hcond : (db.batchActive && decide (BATCH_LIMIT ≤ db.batchCount)) = false := by
      rw [hA]
      rfl
    unfold execute_sql
    rw [if_neg (by decide : ¬ ("BATCH".length > MAX_COMMAND_LENGTH))]
    rw [hcond, hA]
    rfl
  have hActive : (execute_sql db "BATCH").2.batchActive = true := by rw [hbatch]
  have hCount : (execute_sql db "BATCH").2.batchCount = 0 := by rw [hbatch]
  refine ⟨by rw [hbatch], ?_, ?_⟩
  · intro k hk
    obtain ⟨h1, h2, h3⟩ :=
      iterTables_props (execute_sql db "BATCH").2 hActive hCount k (Nat.le_of_lt hk)
    have hlt : (iterTables (execute_sql db "BATCH").2 k).batchCount < BATCH_LIMIT := by
      rw [h2]; exact hk
    have hstep := execute_tables_in_batch _ h1 hlt
    refine ⟨(iterTables (execute_sql db "BATCH").2 k).tables.map (fun t => t.name), ?_⟩
    show execute_sql (iterTables (execute_sql db "BATCH").2 k) "TABLES"
      = (.ok (.names ((iterTables (execute_sql db "BATCH").2 k).tables.map (fun t => t.name))),
         (execute_sql (iterTables (execute_sql db "BATCH").2 k) "TABLES").2)
    rw [hstep]
  · intro k hk
    obtain ⟨j, rfl⟩ : ∃ j, k = BATCH_LIMIT + j := ⟨k - BATCH_LIMIT, by omega⟩
    obtain ⟨p1, p2, p3⟩ :=
      iterTables_props (execute_sql db "BATCH").2 hActive hCount BATCH_LIMIT (Nat.le_refl _)
    have hfail : execute_sql (iterTables (execute_sql db "BATCH").2 BATCH_LIMIT) "TABLES"
        = (.error "Batch operation limit exceeded",
           iterTables (execute_sql db "BATCH").2 BATCH_LIMIT) :=
      execute_sql_batch_exhausted _ "TABLES" (by decide) p1 (by rw [p2])
    have hfix : ∀ j2, iterTables (execute_sql db "BATCH").2 (BATCH_LIMIT + j2)
        = iterTables (execute_sql db "BATCH").2 BATCH_LIMIT := by
      intro j2
      induction j2 with
      | zero => rfl
      | succ m ihm =>
          show (execute_sql (iterTables (execute_sql db "BATCH").2 (BATCH_LIMIT + m)) "TABLES").2
            = _
          rw [ihm, hfail]
    rw [hfix j, hfail]

/-- C6 witness: from the fresh database, `BATCH` opens a session, the first
follow-up command succeeds, and the command after the 512th fails with the
batch-limit error, unexecuted. -/
theorem batch_limit_enforced_witness :
    (execute_sql emptyDb "BATCH").1 = .ok .unit ∧
    (∃ l, execute_sql (iterTables (execute_sql emptyDb "BATCH").2 0) "TABLES"
      = (.ok (.names l), iterTables (execute_sql emptyDb "BATCH").2 1)) ∧
    execute_sql (iterTables (execute_sql emptyDb "BATCH").2 BATCH_LIMIT) "TABLES"
      = (.error "Batch operation limit exceeded",
         iterTables (execute_sql emptyDb "BATCH").2 BATCH_LIMIT) := by
  have h := batch_limit_enforced emptyDb rfl
  exact ⟨h.1, h.2.1 0 (by decide), h.2.2 BATCH_LIMIT (Nat.le_refl _)⟩

theorem valueLe_refl (a : Value) : valueLe a a = true := by
  cases a <;> simp [valueLe]

theorem valueLe_total (a b : Value) : (valueLe a b || valueLe b a) = true := by
  cases a <;> cases b <;> simp [valueLe, Value.rank] <;> exact le_total _ _

theorem valueLe_trans (a b c : Value) :
    valueLe a b = true → valueLe b c = true → valueLe a c = true := by
  cases a <;> cases b <;> cases c <;> simp [valueLe, Value.rank] <;>
    exact fun h1 h2 => le_trans h1 h2

theorem optValueLe_refl (a : Option Value) : optValueLe a a = true := by
  cases a with
  | none => rfl
  | some x => simpa [optValueLe] using valueLe_refl x

theorem optValueLe_total (a b : Option Value) : (optValueLe a b || optValueLe b a) = true := by
  cases a with
  | none => simp [optValueLe]
  | some x =>
      cases b with
      | none => simp [optValueLe]
      | some y => simpa [optValueLe] using valueLe_total x y

theorem optValueLe_trans (a b c : Option Value) :
    optValueLe a b = true → optValueLe b c = true → optValueLe a c = true := by
  cases a with
  | none => intro _ _; rfl
  | some x =>
      cases b with
      | none => intro h1 _; simp [optValueLe] at h1
      | some y =>
          cases c with
          | none => intro _ h2; simp [optValueLe] at h2
          | some z =>
              intro h1 h2
              simp only [optValueLe] at h1 h2 ⊢
              exact valueLe_trans x y z h1 h2

theorem rowCmp_total (f : String) (asc : Bool) (a b : Row) :
    (rowCmp f asc a b || rowCmp f asc b a) = true := by
  cases asc
  · simpa [rowCmp] using optValueLe_total (keyOf f b) (keyOf f a)
  · simpa [rowCmp] using optValueLe_total (keyOf f a) (keyOf f b)

theorem rowCmp_trans (f : String) (asc : Bool) (a b c : Row) :
    rowCmp f asc a b = true → rowCmp f asc b c = true → rowCmp f asc a c = true := by
  cases asc
  · intro h1 h2
    simp only [rowCmp, Bool.false_eq_true, if_false] at h1 h2 ⊢
    exact optValueLe_trans (keyOf f c) (keyOf f b) (keyOf f a) h2 h1
  · intro h1 h2
    simp only [rowCmp, if_true] at h1 h2 ⊢
    exact optValueLe_trans (keyOf f a) (keyOf f b) (keyOf f c) h1 h2

theorem mergeSort_filter_class (le : Row → Row → Bool)
    (trans : ∀ a b c : Row, le a b → le b c → le a c)
    (total : ∀ a b : Row, le a b || le b a)
    (l : List Row) (p : Row → Bool)
    (hp : ∀ a b : Row, p a = true → p b = true → le a b = true) :
    (l.mergeSort le).filter p = l.filter p := by
  have hpair : (l.filter p).Pairwise (fun a b => le a b = true) :=
    List.pairwise_of_forall_mem_list
      (fun a ha b hb => hp a b (List.of_mem_filter ha) (List.of_mem_filter hb))
  have hsub : List.Sublist (l.filter p) (l.mergeSort le) :=
    List.sublist_mergeSort trans total hpair (List.filter_sublist l)
  have hfsub : List.Sublist (l.filter p) ((l.mergeSort le).filter p) := by
    have h2 : (l.filter p).filter p = l.filter p :=
      List.filter_eq_self.mpr (fun a ha => List.of_mem_filter ha)
    have h3 := hsub.filter p
    rwa [h2] at h3
  have hperm : List.Perm ((l.mergeSort le).filter p) (l.filter p) :=
    (List.mergeSort_perm l le).filter p
  exact (hfsub.eq_of_length hperm.length_eq.symm).symm

/-- C3: `Query(T).where_eq(k,v).order_by(s,dir).take(n)` returns at most
`n` rows, all satisfying `k = v`, sorted by field `s` in the requested
direction, and rows with equal sort keys keep their relative insertion
order against the filtered table (filter before sort before limit). -/
theorem query_where_order_take (db : Database) (T : String) (tbl : Table)
    (k : String) (v : Value) (s : String) (asc : Bool) (n : Nat)
    (hget : getTable db T = some tbl) :
    ∃ res, query db ((((Query.new T).where_eq k v).order_by s asc).take n) = .ok res ∧
      res.length ≤ n ∧
      (∀ r ∈ res, alookup r.data k = some v) ∧
      res.Pairwise (fun a b => rowCmp s asc a b = true) ∧
      (∀ c : Option Value,
        List.IsPrefix (res.filter (fun r => decide (keyOf s r = c)))
          ((tbl.rows.filter (wherePred [(k, v)])).filter (fun r => decide (keyOf s r = c)))) := by
  refine ⟨runQueryRows tbl.rows ((((Query.new T).where_eq k v).order_by s asc).take n),
    ?_, ?_, ?_, ?_, ?_⟩
  · unfold query
    rw [show ((((Query.new T).where_eq k v).order_by s asc).take n).table = T from rfl, hget]
  · exact List.length_take_le n _
  · intro r hr
    have hr2 : r ∈ (tbl.rows.filter (wherePred [(k, v)])).mergeSort (rowCmp s asc) :=
      List.mem_of_mem_take hr
    have hr3 : r ∈ tbl.rows.filter (wherePred [(k, v)]) := List.mem_mergeSort.mp hr2
    have hr4 := List.of_mem_filter hr3
    simpa [wherePred] using hr4
  · exact ((List.sorted_mergeSort (rowCmp_trans s asc) (rowCmp_total s asc)
      (tbl.rows.filter (wherePred [(k, v)])))).sublist (List.take_sublist n _)
  · intro c
    have hcls : ∀ a b : Row, (fun r => decide (keyOf s r = c)) a = true →
        (fun r => decide (keyOf s r = c)) b = true → rowCmp s asc a b = true := by
      intro a b ha hb
      have ha2 : keyOf s a = c := of_decide_eq_true ha
      have hb2 : keyOf s b = c := of_decide_eq_true hb
      cases asc <;> simp only [rowCmp, if_true, Bool.false_eq_true, if_false] <;>
        rw [ha2, hb2] <;> exact optValueLe_refl c
    have heq := mergeSort_filter_class (rowCmp s asc) (rowCmp_trans s asc) (rowCmp_total s asc)
      (tbl.rows.filter (wherePred [(k, v)])) (fun r => decide (keyOf s r = c)) hcls
    have hpre : List.IsPrefix
        ((runQueryRows tbl.rows
          ((((Query.new T).where_eq k v).order_by s asc).take n)).filter
            (fun r => decide (keyOf s r = c)))
        (((tbl.rows.filter (wherePred [(k, v)])).mergeSort (rowCmp s asc)).filter
          (fun r => decide (keyOf s r = c))) :=
      (List.take_prefix n _).filter _
    rwa [heq] at hpre

/-- C3 witness: the test-suite query over the two-user table. -/
theorem query_where_order_take_witness :
    ∃ res, query twoUsersDb ((((Query.new "users").where_eq "is_active" (.bool true)).order_by
        "age" true).take 5) = .ok res ∧
      res.length ≤ 5 ∧
      (∀ r ∈ res, alookup r.data "is_active" = some (.bool true)) ∧
      res.Pairwise (fun a b => rowCmp "age" true a b = true) ∧
      (∀ c : Option Value,
        List.IsPrefix (res.filter (fun r => decide (keyOf "age" r = c)))
          ((twoUsersTable.rows.filter (wherePred [("is_active", .bool true)])).filter
            (fun r => decide (keyOf "age" r = c)))) :=
  query_where_order_take twoUsersDb "users" twoUsersTable "is_active" (.bool true) "age" true 5
    rfl

theorem noShared_symm {uniq : List String} {d1 d2 : RowData}
    (h : noShared uniq d1 d2) : noShared uniq d2 d1 :=
  fun f hf v h1 h2 => h f hf v h2 h1

theorem getTable_mem {db : Database} {t : String} {tbl : Table}
    (hget : getTable db t = some tbl) : tbl ∈ db.tables :=
  List.mem_of_find?_eq_some hget

theorem noShared_of_not_conflict (fields : List (String × FieldSpec)) (data : RowData)
    (rows : List Row) (h : uniqueConflictRows fields data rows = false) :
    ∀ r ∈ rows, noShared (uniqueFieldNames fields) data r.data := by
  intro r hr f hf v h1 h2
  obtain ⟨fp, hmem, hfst⟩ := List.mem_map.mp hf
  have hmem2 : fp ∈ fields := List.mem_of_mem_filter hmem
  have huniq : fp.2.unique = true := by simpa using List.of_mem_filter hmem
  have hcontra : uniqueConflictRows fields data rows = true := by
    unfold uniqueConflictRows
    rw [List.any_eq_true]
    refine ⟨r, hr, ?_⟩
    rw [List.any_eq_true]
    refine ⟨fp, hmem2, ?_⟩
    rw [huniq, Bool.true_and]
    unfold sharesValue
    rw [hfst, h1, h2]
    simp
  rw [h] at hcontra
  cases hcontra

theorem mem_aset {β : Type} (l : List (String × β)) (k : String) (v : β)
    (p : String × β) (h : p ∈ aset l k v) : p = (k, v) ∨ p ∈ l := by
  induction l with
  | nil => simpa [aset] using h
  | cons q rest ih =>
      by_cases hq : q.1 = k
      · rw [show aset (q :: rest) k v = (k, v) :: rest by simp [aset, hq]] at h
        cases List.mem_cons.mp h with
        | inl h1 => exact Or.inl h1
        | inr h2 => exact Or.inr (List.mem_cons_of_mem q h2)
      · rw [show aset (q :: rest) k v = q :: aset rest k v by simp [aset, hq]] at h
        cases List.mem_cons.mp h with
        | inl h1 => exact Or.inr (h1 ▸ List.mem_cons_self q rest)
        | inr h2 =>
            cases ih h2 with
            | inl h3 => exact Or.inl h3
            | inr h4 => exact Or.inr (List.mem_cons_of_mem q h4)

theorem alookup_mem {β : Type} (l : List (String × β)) (k : String) (v : β)
    (h : alookup l k = some v) : (k, v) ∈ l := by
  induction l with
  | nil => simp [alookup] at h
  | cons q rest ih =>
      by_cases hq : q.1 = k
      · have : alookup (q :: rest) k = some q.2 := by
          show (if q.1 = k then some q.2 else alookup rest k) = some q.2
          rw [if_pos hq]
        rw [this] at h
        have hv : q.2 = v := by injection h
        have : q = (k, v) := by
          cases q
          simp_all
        exact this ▸ List.mem_cons_self q rest
      · have : alookup (q :: rest) k = alookup rest k := by
          show (if q.1 = k then some q.2 else alookup rest k) = _
          rw [if_neg hq]
        rw [this] at h
        exact List.mem_cons_of_mem q (ih h)

theorem dbOk_of_same (db db2 : Database) (ht : db2.tables = db.tables)
    (hs : db2.snapshots = db.snapshots) (h : dbOk db) : dbOk db2 := by
  constructor
  · show storesOk db2.tables
    rw [ht]
    exact h.1
  · intro p hp
    rw [hs] at hp
    exact h.2 p hp

theorem storesOk_setTable (db : Database) (tname : String) (tbl2 : Table)
    (h : storesOk db.tables) (h2 : tableOk tbl2) : storesOk (setTable db tname tbl2).tables := by
  intro t2 ht2
  obtain ⟨t, ht, hteq⟩ := List.mem_map.mp ht2
  by_cases hn : t.name = tname
  · rw [if_pos hn] at hteq
    exact hteq ▸ h2
  · rw [if_neg hn] at hteq
    exact hteq ▸ h t ht

theorem dbOk_setTable (db : Database) (tname : String) (tbl2 : Table)
    (h : dbOk db) (h2 : tableOk tbl2) : dbOk (setTable db tname tbl2) :=
  ⟨storesOk_setTable db tname tbl2 h.1 h2, fun p hp => h.2 p hp⟩

theorem tableOk_append_row (tbl : Table) (d : RowData) (rid : Nat)
    (h : tableOk tbl) (hc : uniqueConflictRows tbl.fields d tbl.rows = false) :
    tableOk { tbl with nextId := rid, rows := tbl.rows ++ [{ id := tbl.nextId, data := d }] } := by
  show List.Pairwise _ (tbl.rows ++ [{ id := tbl.nextId, data := d }])
  rw [List.pairwise_append]
  refine ⟨h, List.pairwise_singleton _ _, ?_⟩
  intro a ha b hb
  have hb2 : b = { id := tbl.nextId, data := d } := by simpa using hb
  subst hb2
  exact noShared_symm (noShared_of_not_conflict tbl.fields d tbl.rows hc a ha)

theorem updateGo_pairwise (fields : List (String × FieldSpec)) (flex : Bool)
    (sel : Selector) (changes : RowData) :
    ∀ (pending before : List Row),
      List.Pairwise (fun a b => noShared (uniqueFieldNames fields) a.data b.data)
        (before ++ pending) →
      List.Pairwise (fun a b => noShared (uniqueFieldNames fields) a.data b.data)
        ((updateGo fields flex sel changes before pending).1) := by
  intro pending
  induction pending with
  | nil =>
      intro before h
      simpa [updateGo] using h
  | cons r rest ih =>
      intro before h
      unfold updateGo
      by_cases hm : rowMatches sel r = true
      · rw [if_pos hm]
        dsimp only
        by_cases hcond : ((validate fields flex (mergeData r.data changes)).toBool
            && !uniqueConflictRows fields (mergeData r.data changes) (before ++ rest)) = true
        · rw [if_pos hcond]
          dsimp only
          apply ih
          have hconf : uniqueConflictRows fields (mergeData r.data changes)
              (before ++ rest) = false := by
            revert hcond
            cases uniqueConflictRows fields (mergeData r.data changes) (before ++ rest) <;> simp
          have hsym : ∀ {x y : Row},
              (fun a b : Row => noShared (uniqueFieldNames fields) a.data b.data) x y →
              (fun a b : Row => noShared (uniqueFieldNames fields) a.data b.data) y x :=
            fun hxy => noShared_symm hxy
          have h1 := (List.pairwise_middle hsym).mp h
          have hrest := (List.pairwise_cons.mp h1).2
          have hnew : ∀ b ∈ before ++ rest,
              noShared (uniqueFieldNames fields) (mergeData r.data changes) b.data :=
            fun b hb =>
              noShared_of_not_conflict fields (mergeData r.data changes)
                (before ++ rest) hconf b hb
          have h2 : List.Pairwise (fun a b => noShared (uniqueFieldNames fields) a.data b.data)
              ({ r with data := mergeData r.data changes } :: (before ++ rest)) :=
            List.pairwise_cons.mpr ⟨fun b hb => hnew b hb, hrest⟩
          have h3 := (List.pairwise_middle hsym).mpr h2
          rw [List.append_assoc, List.singleton_append]
          exact h3
        · rw [if_neg hcond]
          apply ih
          rw [List.append_assoc, List.singleton_append]
          exact h
      · rw [if_neg hm]
        apply ih
        rw [List.append_assoc, List.singleton_append]
        exact h

theorem updateGo_prefix (fields : List (String × FieldSpec)) (flex : Bool)
    (sel : Selector) (changes : RowData) :
    ∀ (pending before : List Row),
      ∃ suf, (updateGo fields flex sel changes before pending).1 = before ++ suf := by
  intro pending
  induction pending with
  | nil => intro before; exact ⟨[], by simp [updateGo]⟩
  | cons r rest ih =>
      intro before
      unfold updateGo
      by_cases hm : rowMatches sel r = true
      · rw [if_pos hm]
        dsimp only
        by_cases hcond : ((validate fields flex (mergeData r.data changes)).toBool
            && !uniqueConflictRows fields (mergeData r.data changes) (before ++ rest)) = true
        · rw [if_pos hcond]
          dsimp only
          obtain ⟨suf, hsuf⟩ := ih (before ++ [{ r with data := mergeData r.data changes }])
          exact ⟨{ r with data := mergeData r.data changes } :: suf,
            by rw [hsuf, List.append_assoc, List.singleton_append]⟩
        · rw [if_neg hcond]
          obtain ⟨suf, hsuf⟩ := ih (before ++ [r])
          exact ⟨r :: suf, by rw [hsuf, List.append_assoc, List.singleton_append]⟩
      · rw [if_neg hm]
        obtain ⟨suf, hsuf⟩ := ih (before ++ [r])
        exact ⟨r :: suf, by rw [hsuf, List.append_assoc, List.singleton_append]⟩

theorem dispatchCommand_same (db : Database) (line : String) :
    (dispatchCommand db line).2.tables = db.tables ∧
    (dispatchCommand db line).2.snapshots = db.snapshots := by
  unfold dispatchCommand
  refine ⟨?_, ?_⟩ <;> (repeat' (first | split | dsimp only))

theorem execute_sql_same (db : Database) (line : String) :
    (execute_sql db line).2.tables = db.tables ∧
    (execute_sql db line).2.snapshots = db.snapshots := by
  unfold execute_sql
  split
  · exact ⟨rfl, rfl⟩
  · split
    · exact ⟨rfl, rfl⟩
    · dsimp only
      constructor
      · rw [(dispatchCommand_same _ line).1]
        split <;> rfl
      · rw [(dispatchCommand_same _ line).2]
        split <;> rfl

theorem insert_preserves_dbOk (db : Database) (t : String) (d : RowData)
    (h : dbOk db) : dbOk (insert db t d).2 := by
  unfold insert
  cases hget : getTable db t with
  | none => exact h
  | some tbl =>
      dsimp only
      cases hval : validate tbl.fields tbl.flexible d with
      | error e => exact h
      | ok u =>
          dsimp only
          cases hconf : uniqueConflictRows tbl.fields d tbl.rows with
          | true => rw [if_pos rfl]; exact h
          | false =>
              simp only [Bool.false_eq_true, if_false]
              exact dbOk_setTable db t _ h
                (tableOk_append_row tbl d (tbl.nextId + 1)
                  (h.1 tbl (getTable_mem hget)) hconf)

theorem update_preserves_dbOk (db : Database) (t : String) (sel : Selector)
    (c : RowData) (h : dbOk db) : dbOk (update db t sel c).2 := by
  unfold update
  cases hget : getTable db t with
  | none => exact h
  | some tbl =>
      dsimp only
      refine dbOk_setTable db t _ h ?_
      exact updateGo_pairwise tbl.fields tbl.flexible sel c tbl.rows []
        (h.1 tbl (getTable_mem hget))

theorem remove_preserves_dbOk (db : Database) (t : String) (sel : Selector)
    (h : dbOk db) : dbOk (remove db t sel).2 := by
  unfold remove
  cases hget : getTable db t with
  | none => exact h
  | some tbl =>
      dsimp only
      refine dbOk_setTable db t _ h ?_
      show List.Pairwise _ (tbl.rows.filter _)
      exact (h.1 tbl (getTable_mem hget)).sublist (List.filter_sublist tbl.rows)

theorem create_table_preserves_dbOk (db : Database) (t : String)
    (fields : List (String × FieldSpec)) (flex : Bool) (h : dbOk db) :
    dbOk (create_table db t fields flex).2 := by
  unfold create_table
  split
  · exact h
  · constructor
    · intro tbl ht
      rcases List.mem_append.mp ht with h1 | h2
      · exact h.1 tbl h1
      · have h3 : tbl = { name := t, fields := fields, flexible := flex, nextId := 1, rows := [] } := by
          simpa using h2
        rw [h3]
        exact List.Pairwise.nil
    · exact fun p hp => h.2 p hp

theorem unlink_preserves_dbOk (db : Database) (tA : String) (idA : Nat)
    (label : String) (tB : String) (idB : Nat) (h : dbOk db) :
    dbOk (unlink db tA idA label tB idB).2 := by
  unfold unlink
  dsimp only
  split
  · exact ⟨h.1, h.2⟩
  · exact h

theorem checkpoint_preserves_dbOk (db : Database) (n : String) (h : dbOk db) :
    dbOk (checkpoint db n) := by
  refine ⟨h.1, ?_⟩
  intro p hp
  rcases mem_aset db.snapshots n (captureState db) p hp with h1 | h2
  · rw [h1]
    exact h.1
  · exact h.2 p h2

theorem rollback_preserves_dbOk (db : Database) (n : String) (h : dbOk db) :
    dbOk (rollback_to db n).2 := by
  unfold rollback_to
  cases hl : alookup db.snapshots n with
  | none => exact h
  | some s =>
      dsimp only
      refine ⟨?_, fun p hp => h.2 p hp⟩
      show storesOk s.tables
      exact h.2 (n, s) (alookup_mem db.snapshots n s hl)

theorem ingest_preserves_dbOk (db : Database) (p : String) (h : dbOk db) :
    dbOk (ingest db p).2 := by
  unfold ingest
  split
  · exact h
  · exact h

theorem insertMany_dbOk (t : String) : ∀ (ds : List RowData) (db : Database)
    (res : Database × Nat), insertMany db t ds = .ok res → dbOk db → dbOk res.1 := by
  intro ds
  induction ds with
  | nil =>
      intro db res h hok
      unfold insertMany at h
      simp only [Except.ok.injEq] at h
      rw [← h]
      exact hok
  | cons d ds ih =>
      intro db res h hok
      unfold insertMany at h
      cases hpair : insert db t d with
      | mk r1 db1 =>
          rw [hpair] at h
          cases r1 with
          | error e => simp at h
          | ok rid =>
              dsimp only at h
              cases hrec : insertMany db1 t ds with
              | error e => rw [hrec] at h; simp at h
              | ok p =>
                  rw [hrec] at h
                  simp only [Except.ok.injEq] at h
                  have hok1 : dbOk db1 := by
                    have h2 : (insert db t d).2 = db1 := by rw [hpair]
                    rw [← h2]
                    exact insert_preserves_dbOk db t d hok
                  have := ih db1 p hrec hok1
                  rw [← h]
                  exact this

theorem import_jsonl_preserves_dbOk (db : Database) (t path : String)
    (fs : FileSystem) (h : dbOk db) : dbOk (import_jsonl db t path fs).2.1 := by
  unfold import_jsonl
  split
  · exact h
  · split
    · exact h
    · exact h
    · split
      · exact h
      · split
        · exact h
        · split
          · exact h
          · split
            · exact h
            · rename_i hmany
              exact insertMany_dbOk t _ db _ hmany h

theorem import_sqlite_preserves_dbOk (db : Database) (t path src : String)
    (fs : FileSystem) (h : dbOk db) : dbOk (import_sqlite db t path src fs).2.1 := by
  unfold import_sqlite
  split
  · exact h
  · split
    · exact h
    · split
      · exact h
      · split
        · exact h
        · exact h
        · split
          · exact h
          · split
            · exact h
            · rename_i hmany
              exact insertMany_dbOk t _ db _ hmany h

theorem reachable_dbOk (db : Database) (h : Reachable db) : dbOk db := by
  induction h with
  | init =>
      refine ⟨?_, ?_⟩ <;> intro x hx <;> simp [emptyDb] at hx
  | createTable db t fields flex hr ih => exact create_table_preserves_dbOk db t fields flex ih
  | ins db t d hr ih => exact insert_preserves_dbOk db t d ih
  | upd db t sel c hr ih => exact update_preserves_dbOk db t sel c ih
  | rem db t sel hr ih => exact remove_preserves_dbOk db t sel ih
  | lnk db tA idA label tB idB hr ih => exact ⟨ih.1, ih.2⟩
  | unlnk db tA idA label tB idB hr ih => exact unlink_preserves_dbOk db tA idA label tB idB ih
  | putKV db k v hr ih => exact ⟨ih.1, ih.2⟩
  | chk db n hr ih => exact checkpoint_preserves_dbOk db n ih
  | rb db n hr ih => exact rollback_preserves_dbOk db n ih
  | exec db line hr ih =>
      exact dbOk_of_same db _ (execute_sql_same db line).1 (execute_sql_same db line).2 ih
  | ing db p hr ih => exact ingest_preserves_dbOk db p ih
  | imj db t path fs hr ih => exact import_jsonl_preserves_dbOk db t path fs ih
  | ims db t path src fs hr ih => exact import_sqlite_preserves_dbOk db t path src fs ih

/-- C2: in every reachable state, no two live rows of any table share a
value of a field declared unique (enforced across insert, update, remove,
rollback, imports and all other public operations); an insert whose data
clashes on a unique field with a live row fails and leaves the state
unchanged; and in the update walk, a matching row whose merged result
clashes with the other rows (the row itself excluded) is left unchanged in
place. -/
theorem unique_field_invariant (db : Database) (hreach : Reachable db) :
    (∀ tbl ∈ db.tables, tableOk tbl) ∧
    (∀ tname tbl data, getTable db tname = some tbl →
      uniqueConflictRows tbl.fields data tbl.rows = true →
      (∃ e, (insert db tname data).1 = Except.error e) ∧ (insert db tname data).2 = db) ∧
    (∀ fields flex sel changes before r rest,
      rowMatches sel r = true →
      uniqueConflictRows fields (mergeData r.data changes) (before ++ rest) = true →
      ∃ suf, (updateGo fields flex sel changes before (r :: rest)).1 = before ++ r :: suf) := by
  refine ⟨(reachable_dbOk db hreach).1, ?_, ?_⟩
  · intro tname tbl data hget hconf
    unfold insert
    rw [hget]
    dsimp only
    cases hval : validate tbl.fields tbl.flexible data with
    | error e => exact ⟨⟨e, rfl⟩, rfl⟩
    | ok u =>
        dsimp only
        rw [hconf, if_pos rfl]
        exact ⟨⟨"Unique constraint violation", rfl⟩, rfl⟩
  · intro fields flex sel changes before r rest hm hconf
    unfold updateGo
    rw [if_pos hm]
    dsimp only
    have hcond : ((validate fields flex (mergeData r.data changes)).toBool
        && !uniqueConflictRows fields (mergeData r.data changes) (before ++ rest)) = false := by
      rw [hconf]
      simp
    rw [if_neg (by simp [hcond])]
    obtain ⟨suf, hsuf⟩ := updateGo_prefix fields flex sel changes rest (before ++ [r])
    exact ⟨suf, by rw [hsuf, List.append_assoc, List.singleton_append]⟩

/-- C2 witness: the two-user database is reachable, its tables satisfy the
uniqueness invariant, and inserting a row that reuses Alice's unique email
fails leaving the state unchanged. -/
theorem unique_field_invariant_witness :
    (∀ tbl ∈ twoUsersDb.tables, tableOk tbl) ∧
    ((∃ e, (insert twoUsersDb "users" dupEmailData).1 = Except.error e) ∧
      (insert twoUsersDb "users" dupEmailData).2 = twoUsersDb) := by
  have hreach : Reachable twoUsersDb :=
    Reachable.ins _ "users" bobData
      (Reachable.ins _ "users" aliceData
        (Reachable.createTable emptyDb "users" usersFields false Reachable.init))
  have h := unique_field_invariant twoUsersDb hreach
  exact ⟨h.1, h.2.1 "users" twoUsersTable dupEmailData rfl (by decide)⟩

end RsnDb
